import Mathlib

/-!
Verification of the conflict-resolution and text-patch engine of the
Lab-Report-AI application.  The definitions below are a shallow embedding of
the relevant parts of `src/App.tsx` and `src/services/gemini.ts`:

* JavaScript `String.prototype.replace` with a string pattern (first-occurrence
  replacement, including the `$`-substitution patterns of the replacement
  template and the empty-pattern behaviour) is modelled on `List Char`;
* the sequential patch loop of `processAIResponse` (App.tsx lines 133-151);
* the message list, embedded conflicts and the derived unresolved view
  (App.tsx line 32);
* `handleBulkResolveConflicts` (App.tsx lines 189-231): the optimistic
  resolution of conflicts and the compiled resolution manifest;
* the post-processing of a model response in `sendMessageToGemini`
  (gemini.ts lines 159-201), in particular the fallback acknowledgement text;
* the orchestration of one `submit` (`handleSendMessage` / `processAIResponse`).

JavaScript strings are sequences of UTF-16 code units; all strings appearing
here are free of surrogate pairs, so modelling them as Lean `String`
(sequences of unicode scalar values) is faithful.
-/

namespace LabReportAI

/-- Finds the first occurrence of `search` inside a character list, scanning
from the left exactly as JavaScript `String.prototype.indexOf` does.  Returns
`some (before, after)` where the scanned list is `before ++ search ++ after`
and `before` is as short as possible, or `none` when `search` does not occur.
An empty `search` matches at position 0. -/
def firstMatch (search : List Char) : List Char → Option (List Char × List Char)
  | [] => if search.isPrefixOf ([] : List Char) then some ([], []) else none
  | c :: rest =>
    if search.isPrefixOf (c :: rest) then some ([], (c :: rest).drop search.length)
    else (firstMatch search rest).map (fun pr => (c :: pr.1, pr.2))

/-- ECMAScript `GetSubstitution` for a string (non-regexp) pattern: in the
replacement template, `$$` stands for a dollar sign, `$&` for the matched
text, a dollar sign followed by the character 0x60 (grave accent) for the text
before the match, a dollar sign followed by the character 0x27 (apostrophe)
for the text after the match; every other use of `$` is literal (a string
pattern has no capture groups, so `$n` and `$<` are literal as well). -/
def expandDollar (matched pre suf : List Char) : List Char → List Char
  | [] => []
  | c1 :: rest1 =>
    if c1 = '$' then
      match rest1 with
      | [] => ['$']
      | c2 :: rest2 =>
        if c2 = '$' then '$' :: expandDollar matched pre suf rest2
        else if c2 = '&' then matched ++ expandDollar matched pre suf rest2
        else if c2 = Char.ofNat 96 then pre ++ expandDollar matched pre suf rest2
        else if c2 = Char.ofNat 39 then suf ++ expandDollar matched pre suf rest2
        else '$' :: c2 :: expandDollar matched pre suf rest2
    else c1 :: expandDollar matched pre suf rest1

/-- JavaScript `s.replace(search, repl)` for string arguments: replace the
first occurrence of `search` (expanding `$`-patterns in `repl`); return `s`
unchanged when `search` does not occur. -/
def jsReplace (s search repl : List Char) : List Char :=
  match firstMatch search s with
  | none => s
  | some pr => pr.1 ++ expandDollar search pr.1 pr.2 repl ++ pr.2

/-- `jsReplace` lifted to `String`. -/
def jsReplaceStr (s search repl : String) : String :=
  ⟨jsReplace s.data search.data repl.data⟩

/-- `needle` occurs as an exact substring of `hay` (JavaScript
`hay.includes(needle)` / a successful `indexOf`). -/
def strOccurs (needle hay : String) : Bool :=
  (firstMatch needle.data hay.data).isSome

/-- The replacement template contains no dollar sign, hence is inserted
verbatim by `jsReplace`. -/
def noDollar (s : String) : Prop := '$' ∉ s.data

instance (s : String) : Decidable (noDollar s) := by
  unfold noDollar; infer_instance

/-- A proposed text substitution (tool-call payload `update_report`,
gemini.ts lines 102-105). -/
structure UpdateReportAction where
  search_text : String
  replacement_text : String
deriving DecidableEq, Repr

/-- One iteration of the patch loop of `processAIResponse`
(App.tsx lines 138-146): replace the first occurrence, and count the patch as
applied only when the substitution changed the buffer. -/
def patchStep (acc : String × Nat) (update : UpdateReportAction) : String × Nat :=
  let updated := jsReplaceStr acc.1 update.search_text update.replacement_text
  if updated ≠ acc.1 then (updated, acc.2 + 1) else acc

/-- Sequential multi-update application (App.tsx lines 133-146): fold the
patch list in order over the mutable `nextContent` / `appliedCount` pair. -/
def applyReportUpdates (content : String) (reportUpdates : List UpdateReportAction) :
    String × Nat :=
  reportUpdates.foldl patchStep (content, 0)

/-- A resolution strategy for a conflict (types.ts line 14). -/
inductive Resolution where
  | kept_existing
  | updated_new
  | combined
deriving DecidableEq, Repr

/-- The conflict record embedded in a message (types.ts lines 8-15).  Every
field that JavaScript can leave `undefined` is an `Option`; in particular the
object-spread of an `undefined` conflict in `handleBulkResolveConflicts`
produces a conflict whose informational fields are all absent.  The optional
boolean `resolved` is modelled as `Bool`; JavaScript reads it only through
truthiness, under which `undefined` and `false` coincide. -/
structure Conflict where
  existing_info : Option String
  new_info : Option String
  description : Option String
  reasoning : Option String
  resolved : Bool
  resolution : Option Resolution
deriving DecidableEq, Repr

/-- Message role (types.ts line 4). -/
inductive Role where
  | user
  | model
deriving DecidableEq, Repr

/-- A conversation turn (types.ts lines 2-17).  The fields `sources`,
`provider` and `timestamp` play no part in any claim and are omitted. -/
structure Message where
  id : String
  role : Role
  text : String
  conflict : Option Conflict
deriving DecidableEq, Repr

/-- The predicate of App.tsx line 32: `m.conflict && !m.conflict.resolved`. -/
def unresolvedPred (m : Message) : Bool :=
  match m.conflict with
  | some c => !c.resolved
  | none => false

/-- `unresolvedConflicts` (App.tsx line 32): the derived view of the
conversation, filtering the embedded conflicts that are not resolved. -/
def unresolvedConflicts (messages : List Message) : List Message :=
  messages.filter unresolvedPred

/-- Key lookup in a JavaScript record with string keys, modelled as an
association list in insertion order (`Object.entries` enumerates string keys
in insertion order, and keys are unique). -/
def recLookup (resolutions : List (String × Resolution)) (id : String) :
    Option Resolution :=
  (resolutions.find? (fun e => e.1 = id)).map (fun e => e.2)

/-- JavaScript object-spread of a possibly-`undefined` conflict:
`{...undefined}` is the empty object, every field absent. -/
def spreadConflict : Option Conflict → Conflict
  | some c => c
  | none =>
    { existing_info := none, new_info := none, description := none,
      reasoning := none, resolved := false, resolution := none }

/-- The per-message body of the `messages.map` in `handleBulkResolveConflicts`
(App.tsx lines 192-197): a message whose id is a key of `resolutions`
receives `conflict := { ...msg.conflict, resolved: true, resolution: res }`;
any other message is returned untouched. -/
def resolveOne (resolutions : List (String × Resolution)) (msg : Message) :
    Message :=
  match recLookup resolutions msg.id with
  | some res =>
    let c := spreadConflict msg.conflict
    { msg with conflict := some { c with resolved := true, resolution := some res } }
  | none => msg

/-- The optimistic state mutation of `handleBulkResolveConflicts`
(App.tsx lines 192-199). -/
def resolveMessages (messages : List Message)
    (resolutions : List (String × Resolution)) : List Message :=
  messages.map (resolveOne resolutions)

/-- JavaScript template-literal interpolation of a possibly-`undefined`
string: `undefined` prints as the text `undefined`. -/
def jsShow : Option String → String
  | some s => s
  | none => "undefined"

/-- A string holding one apostrophe (character 0x27). -/
def sq : String := String.singleton (Char.ofNat 39)

/-- The manifest line compiled for one conflict and one chosen strategy
(App.tsx lines 205-214), byte-for-byte the template literals of the source. -/
def resolutionLineFor (c : Conflict) : Resolution → String
  | Resolution.updated_new =>
    "Conflict \"" ++ jsShow c.description ++
      "\": USER DECISION = OVERWRITE. Replace existing text block exactly matching \"" ++
      jsShow c.existing_info ++ "\" with new data: \"" ++ jsShow c.new_info ++ "\"."
  | Resolution.combined =>
    "Conflict \"" ++ jsShow c.description ++
      "\": USER DECISION = COMBINE/MERGE. \n              Existing: \"" ++
      jsShow c.existing_info ++ "\"\n              New: \"" ++ jsShow c.new_info ++
      "\"\n              Action: Synthesize BOTH into a professional rewrite using " ++
      sq ++ "update_report" ++ sq ++ "."
  | Resolution.kept_existing =>
    "Conflict \"" ++ jsShow c.description ++
      "\": USER DECISION = KEEP ORIGINAL. Do not call update_report for this item."

/-- The text compiled for one `Object.entries(resolutions)` entry
(App.tsx lines 201-214): look the id up in the (pre-update) message list;
an unknown id or a message without a conflict compiles to the empty string. -/
def resolutionEntryText (messages : List Message) (id : String)
    (res : Resolution) : String :=
  match messages.find? (fun m => m.id = id) with
  | none => ""
  | some msg =>
    match msg.conflict with
    | none => ""
    | some c => resolutionLineFor c res

/-- The list of compiled instructions of the resolution manifest
(App.tsx lines 201-215): one entry per resolution record entry, with the
falsy (empty) entries removed by `.filter(Boolean)`. -/
def resolutionDetails (messages : List Message)
    (resolutions : List (String × Resolution)) : List String :=
  (resolutions.map (fun e => resolutionEntryText messages e.1 e.2)).filter
    (fun s => s ≠ "")

/-- An entry id that `messages.find` resolves to a turn carrying an embedded
conflict. -/
def entryHasConflict (messages : List Message) (id : String) : Bool :=
  match messages.find? (fun m => m.id = id) with
  | none => false
  | some msg => msg.conflict.isSome

/-- Interface language of the app (`'en' | 'fa'`). -/
inductive Lang where
  | en
  | fa
deriving DecidableEq, Repr

/-- Raw `report_conflict` tool-call arguments (gemini.ts lines 41-66: all four
fields are required strings). -/
structure ConflictPayload where
  existing_info : String
  new_info : String
  description : String
  reasoning : String
deriving DecidableEq, Repr

/-- A function call returned by the model, dispatched on its `name`
(gemini.ts lines 164-181). -/
inductive FunctionCall where
  | report_conflict (args : ConflictPayload)
  | update_report (args : UpdateReportAction)
  | add_citation (source : Option String)
  | other (name : String)
deriving DecidableEq, Repr

/-- gemini.ts lines 167-170: collect the `report_conflict` calls. -/
def collectConflicts (calls : List FunctionCall) : List ConflictPayload :=
  calls.filterMap (fun c =>
    match c with
    | FunctionCall.report_conflict a => some a
    | _ => none)

/-- gemini.ts lines 172-175: collect the `update_report` calls. -/
def collectUpdates (calls : List FunctionCall) : List UpdateReportAction :=
  calls.filterMap (fun c =>
    match c with
    | FunctionCall.update_report a => some a
    | _ => none)

/-- gemini.ts lines 177-181: collect the `add_citation` calls whose `source`
argument is truthy (present and nonempty). -/
def collectCitations (calls : List FunctionCall) : List String :=
  calls.filterMap (fun c =>
    match c with
    | FunctionCall.add_citation (some s) => if s ≠ "" then some s else none
    | _ => none)

/-- gemini.ts lines 184-187: fallback acknowledgement text when the model
called `update_report` tools but produced no narrative text. -/
def fallbackUpdated (language : Lang) (n : Nat) : String :=
  match language with
  | Lang.fa => "گزارش با " ++ toString n ++ " مورد تغییر به‌روزرسانی شد."
  | Lang.en => "Report updated with " ++ toString n ++ " changes."

/-- gemini.ts lines 188-192: fallback text when the model reported conflicts
but produced no narrative text. -/
def fallbackConflicts (language : Lang) : String :=
  match language with
  | Lang.fa => "تضادهایی در داده‌ها مشاهده شد. لطفاً در برگه «تضادها» نحوه مدیریت آن‌ها را مشخص کنید."
  | Lang.en => "Data conflicts detected. Please resolve them in the \x27Conflicts\x27 tab."

/-- The structured result handed back by `sendMessageToGemini` (sources and
usage metadata omitted, no claim touches them). -/
structure SendResult where
  text : String
  conflicts : List ConflictPayload
  newCitations : List String
  reportUpdates : List UpdateReportAction
deriving DecidableEq, Repr

/-- Post-processing of a raw model response in `sendMessageToGemini`
(gemini.ts lines 159-201): collect the tool calls and, when tool calls are
present but the narrative text is empty, substitute the fallback texts. -/
def processGeminiResult (rawText : String) (functionCalls : List FunctionCall)
    (language : Lang) : SendResult :=
  let conflicts := collectConflicts functionCalls
  let reportUpdates := collectUpdates functionCalls
  let newCitations := collectCitations functionCalls
  let text :=
    if functionCalls.length > 0 then
      if reportUpdates ≠ [] ∧ rawText = "" then
        fallbackUpdated language reportUpdates.length
      else if conflicts ≠ [] ∧ rawText = "" then fallbackConflicts language
      else rawText
    else rawText
  { text := text, conflicts := conflicts, newCitations := newCitations,
    reportUpdates := reportUpdates }

/-- Application busy state (types.ts lines 40-44). -/
inductive AppState where
  | IDLE
  | PROCESSING
  | ERROR
deriving DecidableEq, Repr

/-- The state touched by one `submit`: the loaded document content, the
conversation, the busy flag, and a counter supplying the fresh ids that
`crypto.randomUUID()` generates (the orchestration claims depend only on ids
being freshly generated values, never on their text). -/
structure AppSt where
  content : String
  messages : List Message
  appState : AppState
  nextId : Nat
deriving DecidableEq, Repr

/-- Fresh id supply standing for `crypto.randomUUID()`. -/
def freshId (n : Nat) : String := toString n

/-- The conflict object stored in a new conflict turn
(App.tsx line 160: `{ ...c, resolved: false }`). -/
def conflictFromPayload (c : ConflictPayload) : Conflict :=
  { existing_info := some c.existing_info, new_info := some c.new_info,
    description := some c.description, reasoning := some c.reasoning,
    resolved := false, resolution := none }

/-- The new conflict turns of App.tsx lines 158-162: one fresh assistant turn
per reported conflict, empty text, conflict flagged unresolved. -/
def conflictMessages (conflicts : List ConflictPayload) (startId : Nat) :
    List Message :=
  conflicts.enum.map (fun p =>
    { id := freshId (startId + p.1), role := Role.model, text := "",
      conflict := some (conflictFromPayload p.2) })

/-- The error turn appended by the catch branch of `processAIResponse`
(App.tsx line 166). -/
def errorText : String := "An error occurred. Please check your API key."

/-- `processAIResponse` (App.tsx lines 117-170) after the collaborator call
resolved, abstracted over that call's outcome.  On success: apply the patch
batch sequentially, commit the new content only when at least one patch
applied, then append one narrative assistant turn when the response text is
nonempty followed by one turn per reported conflict.  On failure: append the
single synthetic error turn.  Both branches finish in the `IDLE` state
(the `finally` of App.tsx line 167).  Citation side effects touch no claimed
state and are omitted. -/
def processAIResponse (st : AppSt) (outcome : Except String SendResult) : AppSt :=
  match outcome with
  | Except.error _ =>
    { st with
      messages := st.messages ++
        [{ id := freshId st.nextId, role := Role.model, text := errorText,
           conflict := none }],
      nextId := st.nextId + 1,
      appState := AppState.IDLE }
  | Except.ok r =>
    let patched := applyReportUpdates st.content r.reportUpdates
    let newContent := if patched.2 > 0 then patched.1 else st.content
    let textMsgs : List Message :=
      if r.text ≠ "" then
        [{ id := freshId st.nextId, role := Role.model, text := r.text,
           conflict := none }]
      else []
    let confMsgs := conflictMessages r.conflicts (st.nextId + textMsgs.length)
    { st with
      content := newContent,
      messages := st.messages ++ textMsgs ++ confMsgs,
      nextId := st.nextId + textMsgs.length + confMsgs.length,
      appState := AppState.IDLE }

/-- `handleSendMessage` (App.tsx lines 172-176): append the user turn
immediately, then run `processAIResponse` on the collaborator outcome. -/
def handleSendMessage (st : AppSt) (text : String)
    (outcome : Except String SendResult) : AppSt :=
  let userMsg : Message :=
    { id := freshId st.nextId, role := Role.user, text := text, conflict := none }
  processAIResponse
    { st with messages := st.messages ++ [userMsg], nextId := st.nextId + 1 }
    outcome

/-- The operations that can touch the conversation turn list after it exists:
appending new turns (`setMessages(prev => [...prev, ...])`, used by message
arrival and by the error branch) and the bulk resolution map. -/
inductive Op where
  | append (newMsgs : List Message)
  | bulkResolve (resolutions : List (String × Resolution))

/-- Apply one conversation operation. -/
def applyOp (msgs : List Message) : Op → List Message
  | Op.append newMsgs => msgs ++ newMsgs
  | Op.bulkResolve rs => resolveMessages msgs rs

/-- Apply a sequence of conversation operations. -/
def applyOps (msgs : List Message) (ops : List Op) : List Message :=
  ops.foldl applyOp msgs

/-- The message at a position carries a conflict already marked resolved. -/
def hasResolvedConflict (m : Message) : Bool :=
  match m.conflict with
  | some c => c.resolved
  | none => false

/-- Two overlapping invocations of the document-mutation section of
`processAIResponse` (App.tsx lines 134-151).  Each invocation reads
`currentFile.content` through the closure it was created with; when the second
call starts before the first commits, both closures hold the same pre-call
snapshot.  The first call applies its batch to the snapshot and commits; the
second applies its batch to the *same stale snapshot* and, if any of its
patches applied, its commit replaces the content wholesale. -/
def overlappingSubmits (content : String)
    (updatesA updatesB : List UpdateReportAction) : String :=
  let a := applyReportUpdates content updatesA
  let afterA := if a.2 > 0 then a.1 else content
  let b := applyReportUpdates content updatesB
  if b.2 > 0 then b.1 else afterA

/-- Modelled from the spec: the serialized document mutation that §5 of the
specification promises for overlapping submits — the second call's patch
batch is applied against the first call's already-applied content. -/
def serializedSubmits (content : String)
    (updatesA updatesB : List UpdateReportAction) : String :=
  let a := applyReportUpdates content updatesA
  let afterA := if a.2 > 0 then a.1 else content
  let b := applyReportUpdates afterA updatesB
  if b.2 > 0 then b.1 else afterA

/-! ## Helper lemmas -/

theorem isPrefixOf_iff_exists :
    ∀ (a b : List Char), a.isPrefixOf b = true ↔ ∃ t, b = a ++ t := by
  intro a
  induction a with
  | nil =>
    intro b
    simp [List.isPrefixOf]
  | cons x xs ih =>
    intro b
    cases b with
    | nil =>
      simp [List.isPrefixOf]
    | cons y ys =>
      simp only [List.isPrefixOf, Bool.and_eq_true, beq_iff_eq, ih ys,
        List.cons_append, List.cons.injEq]
      constructor
      · rintro ⟨h1, t, h2⟩
        exact ⟨t, h1.symm, h2⟩
      · rintro ⟨t, h1, h2⟩
        exact ⟨h1.symm, t, h2⟩

theorem firstMatch_sound {search : List Char} :
    ∀ (s pre suf : List Char), firstMatch search s = some (pre, suf) →
      s = pre ++ search ++ suf := by
  intro s
  induction s with
  | nil =>
    intro pre suf h
    by_cases hp : search.isPrefixOf ([] : List Char) = true
    · rcases (isPrefixOf_iff_exists search []).mp hp with ⟨t, ht⟩
      simp only [firstMatch, if_pos hp, Option.some.injEq, Prod.mk.injEq] at h
      rcases h with ⟨h1, h2⟩
      rcases List.append_eq_nil.mp ht.symm with ⟨hs, hts⟩
      simp [← h1, ← h2, hs]
    · simp [firstMatch, hp] at h
  | cons c rest ih =>
    intro pre suf h
    by_cases hp : search.isPrefixOf (c :: rest) = true
    · rcases (isPrefixOf_iff_exists search (c :: rest)).mp hp with ⟨t, ht⟩
      simp only [firstMatch, if_pos hp, Option.some.injEq, Prod.mk.injEq] at h
      rcases h with ⟨h1, h2⟩
      subst h1
      have hdrop : (c :: rest).drop search.length = t := by
        rw [ht]; exact List.drop_left search t
      rw [← h2, hdrop, List.nil_append, ht]
    · simp only [firstMatch, if_neg hp, Option.map_eq_some'] at h
      rcases h with ⟨pr, hpr, heq⟩
      have := ih pr.1 pr.2 (by rw [hpr])
      rcases Prod.mk.injEq .. ▸ heq with ⟨h1, h2⟩
      rw [← h1, ← h2]
      simp [this]

theorem firstMatch_minimal {search : List Char} :
    ∀ (s pre suf p q : List Char),
      firstMatch search s = some (pre, suf) → s = p ++ search ++ q →
      pre.length ≤ p.length := by
  intro s
  induction s with
  | nil =>
    intro pre suf p q h hdec
    by_cases hp : search.isPrefixOf ([] : List Char) = true
    · simp only [firstMatch, if_pos hp, Option.some.injEq, Prod.mk.injEq] at h
      rw [← h.1]
      exact Nat.zero_le _
    · simp [firstMatch, hp] at h
  | cons c rest ih =>
    intro pre suf p q h hdec
    by_cases hp : search.isPrefixOf (c :: rest) = true
    · simp only [firstMatch, if_pos hp, Option.some.injEq, Prod.mk.injEq] at h
      rw [← h.1]
      exact Nat.zero_le _
    · simp only [firstMatch, if_neg hp, Option.map_eq_some'] at h
      rcases h with ⟨pr, hpr, heq⟩
      cases p with
      | nil =>
        exfalso
        apply hp
        exact (isPrefixOf_iff_exists search (c :: rest)).mpr ⟨q, by simpa using hdec⟩
      | cons d p1 =>
        have hc : c = d ∧ rest = p1 ++ search ++ q := by
          have := hdec
          simp only [List.cons_append, List.cons.injEq] at this
          exact this
        have hle := ih pr.1 pr.2 p1 q (by rw [hpr]) hc.2
        rcases Prod.mk.injEq .. ▸ heq with ⟨h1, h2⟩
        rw [← h1]
        simpa using Nat.succ_le_succ hle

theorem firstMatch_none {search : List Char} :
    ∀ {s : List Char}, firstMatch search s = none →
      ∀ p q, s ≠ p ++ search ++ q := by
  intro s
  induction s with
  | nil =>
    intro h p q hdec
    rcases List.append_eq_nil.mp hdec.symm with ⟨h1, hq⟩
    rcases List.append_eq_nil.mp h1 with ⟨hp, hs⟩
    subst hs
    simp [firstMatch, List.isPrefixOf] at h
  | cons c rest ih =>
    intro h p q hdec
    by_cases hp : search.isPrefixOf (c :: rest) = true
    · simp [firstMatch, hp] at h
    · simp only [firstMatch, if_neg hp, Option.map_eq_none'] at h
      cases p with
      | nil =>
        apply hp
        refine (isPrefixOf_iff_exists search (c :: rest)).mpr ⟨q, ?_⟩
        simpa using hdec
      | cons d p1 =>
        have hc : rest = p1 ++ search ++ q := by
          simp only [List.cons_append, List.cons.injEq] at hdec
          exact hdec.2
        exact ih h p1 q hc

theorem strOccurs_iff {needle hay : String} :
    strOccurs needle hay = true ↔ ∃ p q, hay.data = p ++ needle.data ++ q := by
  unfold strOccurs
  constructor
  · intro h
    rcases Option.isSome_iff_exists.mp h with ⟨pr, hpr⟩
    exact ⟨pr.1, pr.2, firstMatch_sound _ pr.1 pr.2 (by rw [hpr])⟩
  · rintro ⟨p, q, hdec⟩
    cases hfm : firstMatch needle.data hay.data with
    | some pr => simp
    | none => exact absurd hdec (firstMatch_none hfm p q)

theorem expandDollar_noDollar (matched pre suf : List Char) :
    ∀ (l : List Char), '$' ∉ l → expandDollar matched pre suf l = l := by
  intro l
  induction l with
  | nil =>
    intro h
    simp [expandDollar]
  | cons c rest ih =>
    intro h
    have hc : ¬(c = '$') := by
      intro e
      exact h (e ▸ List.mem_cons_self c rest)
    have hrest : '$' ∉ rest := fun hm => h (List.mem_cons_of_mem c hm)
    rw [expandDollar.eq_def]
    simp [hc, ih hrest]

theorem jsReplaceStr_not_found {s search repl : String}
    (h : strOccurs search s = false) : jsReplaceStr s search repl = s := by
  unfold jsReplaceStr jsReplace
  have : firstMatch search.data s.data = none := by
    cases hfm : firstMatch search.data s.data with
    | none => rfl
    | some pr => simp [strOccurs, hfm] at h
  rw [this]

theorem jsReplaceStr_found {s search repl : String} (pre suf : List Char)
    (hfm : firstMatch search.data s.data = some (pre, suf))
    (hnd : noDollar repl) :
    (jsReplaceStr s search repl).data = pre ++ repl.data ++ suf := by
  unfold jsReplaceStr jsReplace
  rw [hfm]
  simp [expandDollar_noDollar search.data pre suf repl.data hnd]

theorem patchStep_cases (c : String) (n : Nat) (u : UpdateReportAction) :
    patchStep (c, n) u =
      if jsReplaceStr c u.search_text u.replacement_text ≠ c then
        (jsReplaceStr c u.search_text u.replacement_text, n + 1)
      else (c, n) := by
  unfold patchStep
  by_cases h : jsReplaceStr c u.search_text u.replacement_text = c <;> simp [h]

theorem foldl_patchStep_shift :
    ∀ (us : List UpdateReportAction) (c : String) (n : Nat),
      us.foldl patchStep (c, n) =
        ((us.foldl patchStep (c, 0)).1, n + (us.foldl patchStep (c, 0)).2) := by
  intro us
  induction us with
  | nil =>
    intro c n
    rfl
  | cons u us ih =>
    intro c n
    simp only [List.foldl_cons]
    by_cases h : jsReplaceStr c u.search_text u.replacement_text = c
    · rw [patchStep_cases c n u, patchStep_cases c 0 u, if_neg (by simp [h]),
        if_neg (by simp [h])]
      exact ih c n
    · rw [patchStep_cases c n u, patchStep_cases c 0 u, if_pos (by simp [h]),
        if_pos (by simp [h])]
      rw [ih _ (n + 1), ih _ (0 + 1)]
      simp only [Prod.mk.injEq]
      exact ⟨trivial, by omega⟩

theorem applyReportUpdates_cons (c : String) (u : UpdateReportAction)
    (us : List UpdateReportAction) :
    applyReportUpdates c (u :: us) =
      ((applyReportUpdates (applyReportUpdates c [u]).1 us).1,
       (applyReportUpdates c [u]).2 +
         (applyReportUpdates (applyReportUpdates c [u]).1 us).2) := by
  unfold applyReportUpdates
  simp only [List.foldl_cons, List.foldl_nil]
  rw [foldl_patchStep_shift us (patchStep (c, 0) u).1 (patchStep (c, 0) u).2]

theorem applyReportUpdates_snd_zero :
    ∀ (us : List UpdateReportAction) (c : String),
      (applyReportUpdates c us).2 = 0 → (applyReportUpdates c us).1 = c := by
  intro us
  induction us with
  | nil =>
    intro c h
    simp [applyReportUpdates]
  | cons u us ih =>
    intro c h
    rw [applyReportUpdates_cons] at h ⊢
    by_cases hc : jsReplaceStr c u.search_text u.replacement_text = c
    · have h1 : applyReportUpdates c [u] = (c, 0) := by
        unfold applyReportUpdates
        simp only [List.foldl_cons, List.foldl_nil]
        rw [patchStep_cases c 0 u, if_neg (by simp [hc])]
      rw [h1] at h ⊢
      exact ih c (by simpa using h)
    · have h1 : applyReportUpdates c [u] =
          (jsReplaceStr c u.search_text u.replacement_text, 1) := by
        unfold applyReportUpdates
        simp only [List.foldl_cons, List.foldl_nil]
        rw [patchStep_cases c 0 u, if_pos (by simp [hc])]
      rw [h1] at h
      simp at h

theorem string_append_data (a b : String) : (a ++ b).data = a.data ++ b.data := by
  rfl

theorem string_append_ne_empty_left (a b : String) (h : a.data ≠ []) :
    a ++ b ≠ "" := by
  intro he
  apply h
  have : (a ++ b).data = ("" : String).data := by rw [he]
  rw [string_append_data] at this
  rcases List.append_eq_nil.mp this with ⟨h1, h2⟩
  exact h1

theorem string_append_eq_empty {a b : String} (h : a ++ b = "") :
    a = "" ∧ b = "" := by
  have hd := congrArg String.data h
  rw [string_append_data] at hd
  rcases List.append_eq_nil.mp hd with ⟨h1, h2⟩
  exact ⟨String.ext h1, String.ext h2⟩

theorem firstMatch_nil_search :
    ∀ (s : List Char), firstMatch [] s = some ([], s) := by
  intro s
  cases s with
  | nil => simp [firstMatch, List.isPrefixOf]
  | cons c rest => simp [firstMatch, List.isPrefixOf]

/-! ## Claim theorems -/

/-- Claim C1 as stated is false on the code: JavaScript `replace` expands
dollar patterns in the replacement string, so for document "abc" and the
single patch with search_text "b" and replacement_text "$$" the first
occurrence of "b" is not replaced by the replacement text "$$" (which would
give "a$$c"); the code produces "a$c". -/
theorem C1_counterexample :
    applyReportUpdates "abc" [⟨"b", "$$"⟩] = ("a$c", 1) ∧
      ("a$c" : String) ≠ "a$$c" :=
  ⟨by decide, by decide⟩

/-- Claim C1 (amended: the replacement text must contain no dollar sign,
since JavaScript `replace` expands the patterns $$, $&, the dollar sign
followed by 0x60, and the dollar sign followed by 0x27 in the replacement):
patches are processed strictly in list order, each against the result of the
previous step; for a patch whose search_text occurs in the current buffer the
first (earliest) occurrence is replaced by replacement_text; a patch is
counted as applied only if the substitution actually changed the buffer; and
scenario A evaluates as claimed. -/
theorem C1_sequential_first_occurrence :
    (∀ (content : String) (u : UpdateReportAction) (us : List UpdateReportAction),
       applyReportUpdates content (u :: us) =
         ((applyReportUpdates (applyReportUpdates content [u]).1 us).1,
          (applyReportUpdates content [u]).2 +
            (applyReportUpdates (applyReportUpdates content [u]).1 us).2)) ∧
    (∀ (content : String) (u : UpdateReportAction),
       strOccurs u.search_text content = true →
       noDollar u.replacement_text →
       ∃ pre suf : List Char,
         content.data = pre ++ u.search_text.data ++ suf ∧
         (∀ p q : List Char, content.data = p ++ u.search_text.data ++ q →
            pre.length ≤ p.length) ∧
         (jsReplaceStr content u.search_text u.replacement_text).data =
           pre ++ u.replacement_text.data ++ suf) ∧
    (∀ (content : String) (u : UpdateReportAction),
       (applyReportUpdates content [u]).2 =
         if jsReplaceStr content u.search_text u.replacement_text ≠ content
         then 1 else 0) ∧
    applyReportUpdates "The boiling point is 99°C." [⟨"99°C", "100°C"⟩] =
      ("The boiling point is 100°C.", 1) := by
  refine ⟨applyReportUpdates_cons, ?_, ?_, by decide⟩
  · intro content u hocc hnd
    rcases Option.isSome_iff_exists.mp hocc with ⟨pr, hfm⟩
    refine ⟨pr.1, pr.2, ?_, ?_, ?_⟩
    · exact firstMatch_sound _ pr.1 pr.2 (by rw [hfm])
    · intro p q hdec
      exact firstMatch_minimal _ pr.1 pr.2 p q (by rw [hfm]) hdec
    · exact jsReplaceStr_found pr.1 pr.2 (by rw [hfm]) hnd
  · intro content u
    unfold applyReportUpdates
    simp only [List.foldl_cons, List.foldl_nil]
    rw [patchStep_cases content 0 u]
    by_cases h : jsReplaceStr content u.search_text u.replacement_text = content
    · rw [if_neg (by simp [h]), if_neg (by simp [h])]
    · rw [if_pos (by simp [h]), if_pos (by simp [h])]

/-- Witness for C1: the first-occurrence clause instantiated at scenario A,
with both hypotheses discharged concretely. -/
theorem C1_sequential_first_occurrence_witness :
    ∃ pre suf : List Char,
      ("The boiling point is 99°C." : String).data =
        pre ++ (UpdateReportAction.mk "99°C" "100°C").search_text.data ++ suf ∧
      (∀ p q : List Char, ("The boiling point is 99°C." : String).data =
          p ++ (UpdateReportAction.mk "99°C" "100°C").search_text.data ++ q →
          pre.length ≤ p.length) ∧
      (jsReplaceStr "The boiling point is 99°C."
          (UpdateReportAction.mk "99°C" "100°C").search_text
          (UpdateReportAction.mk "99°C" "100°C").replacement_text).data =
        pre ++ (UpdateReportAction.mk "99°C" "100°C").replacement_text.data ++ suf :=
  C1_sequential_first_occurrence.2.1 "The boiling point is 99°C."
    ⟨"99°C", "100°C"⟩ (by decide) (by decide)

/-- Claim C2 as stated is false on the code: the patch loop contains no
rejection of an empty search_text.  JavaScript `replace` with the empty
search string matches at position 0, so the patch with empty search_text and
replacement_text "X" applied to "abc" inserts at the start, changes the
document to "Xabc", and is counted as applied. -/
theorem C2_counterexample :
    applyReportUpdates "abc" [⟨"", "X"⟩] = ("Xabc", 1) ∧
      ("Xabc" : String) ≠ "abc" :=
  ⟨by decide, by decide⟩

/-- Claim C2 (amended): an empty search_text is not rejected — JavaScript
`replace` matches the empty string at position 0 with empty matched text and
empty prefix, so what gets prepended to the buffer is the dollar-expansion of
replacement_text taken with empty matched text and the whole document as the
text after the match (hence $$ contributes a dollar sign, $& and the
grave-accent pattern contribute nothing, the 0x27 pattern contributes the
whole document, and any other text contributes itself); the patch is counted
as applied precisely when that expansion is nonempty.  In particular a
dollar-free replacement text is itself inserted verbatim at the start and
counted whenever it is nonempty. -/
theorem C2_empty_search_inserts_at_start :
    (∀ (content repl : String),
       applyReportUpdates content [⟨"", repl⟩] =
         ((⟨expandDollar [] [] content.data repl.data⟩ : String) ++ content,
          if (⟨expandDollar [] [] content.data repl.data⟩ : String) = ""
          then 0 else 1)) ∧
    (∀ (content repl : String), noDollar repl →
       applyReportUpdates content [⟨"", repl⟩] =
         (repl ++ content, if repl = "" then 0 else 1)) := by
  have hmain : ∀ (content repl : String),
      applyReportUpdates content [⟨"", repl⟩] =
        ((⟨expandDollar [] [] content.data repl.data⟩ : String) ++ content,
         if (⟨expandDollar [] [] content.data repl.data⟩ : String) = ""
         then 0 else 1) := by
    intro content repl
    have hfm : firstMatch ([] : List Char) content.data = some ([], content.data) :=
      firstMatch_nil_search content.data
    have hdata : (jsReplaceStr content "" repl).data =
        expandDollar [] [] content.data repl.data ++ content.data := by
      unfold jsReplaceStr jsReplace
      rw [show ("" : String).data = ([] : List Char) from rfl, hfm]
      rfl
    have hrepl : jsReplaceStr content "" repl =
        (⟨expandDollar [] [] content.data repl.data⟩ : String) ++ content := by
      apply String.ext
      rw [hdata, string_append_data]
    unfold applyReportUpdates
    simp only [List.foldl_cons, List.foldl_nil]
    rw [patchStep_cases content 0 ⟨"", repl⟩]
    by_cases h : (⟨expandDollar [] [] content.data repl.data⟩ : String) = ""
    · have hid : jsReplaceStr content "" repl = content := by
        rw [hrepl, h]
        apply String.ext
        rw [string_append_data]
        rfl
      rw [if_neg (by simp [hid]), if_pos h]
      apply Prod.ext
      · apply String.ext
        rw [string_append_data]
        have hd := congrArg String.data h
        rw [hd]
        rfl
      · rfl
    · have hne : jsReplaceStr content "" repl ≠ content := by
        rw [hrepl]
        intro he
        apply h
        have hd := congrArg String.data he
        rw [string_append_data] at hd
        apply String.ext
        have hlen := congrArg List.length hd
        rw [List.length_append] at hlen
        have h0 : (⟨expandDollar [] [] content.data repl.data⟩ : String).data.length = 0 := by
          omega
        exact List.length_eq_zero.mp h0
      rw [if_pos (by simp [hne]), if_neg h, hrepl]
  refine ⟨hmain, ?_⟩
  intro content repl hnd
  have hE : (⟨expandDollar [] [] content.data repl.data⟩ : String) = repl := by
    apply String.ext
    exact expandDollar_noDollar [] [] content.data repl.data hnd
  rw [hmain content repl, hE]

/-- Witness for C2 (amended): the dollar-free clause at a concrete
document. -/
theorem C2_empty_search_inserts_at_start_witness :
    applyReportUpdates "abc" [⟨"", "X"⟩] =
      ("X" ++ "abc", if ("X" : String) = "" then 0 else 1) :=
  C2_empty_search_inserts_at_start.2 "abc" "X" (by decide)

/-- Claim C3: a patch whose search_text does not occur in the current buffer
is skipped without effect (its step leaves buffer and count unchanged, so the
result equals applying the remaining patches alone); if zero patches applied
the resulting content is exactly the initial content; and scenario C (the
patch "Vmax = 5" against a document lacking it) yields applied count 0 and an
unchanged document.  The embedding is a total function, so no exception can
be raised. -/
theorem C3_nonmatching_patch_skipped :
    (∀ (content : String) (u : UpdateReportAction) (us : List UpdateReportAction),
       strOccurs u.search_text content = false →
       applyReportUpdates content (u :: us) = applyReportUpdates content us) ∧
    (∀ (content : String) (us : List UpdateReportAction),
       (applyReportUpdates content us).2 = 0 →
       (applyReportUpdates content us).1 = content) ∧
    applyReportUpdates "The reaction rate increased." [⟨"Vmax = 5", "Vmax = 7"⟩] =
      ("The reaction rate increased.", 0) := by
  refine ⟨?_, ?_, by decide⟩
  · intro content u us hocc
    unfold applyReportUpdates
    simp only [List.foldl_cons]
    rw [patchStep_cases content 0 u,
      if_neg (by simp [jsReplaceStr_not_found hocc])]
  · intro content us
    exact applyReportUpdates_snd_zero us content

/-- Witness for C3 at scenario C and at the empty patch list. -/
theorem C3_nonmatching_patch_skipped_witness :
    applyReportUpdates "The reaction rate increased."
        [⟨"Vmax = 5", "Vmax = 7"⟩] =
      applyReportUpdates "The reaction rate increased." [] ∧
    (applyReportUpdates "The reaction rate increased."
        [⟨"Vmax = 5", "Vmax = 7"⟩]).1 = "The reaction rate increased." :=
  ⟨C3_nonmatching_patch_skipped.1 "The reaction rate increased."
      ⟨"Vmax = 5", "Vmax = 7"⟩ [] (by decide),
   C3_nonmatching_patch_skipped.2.1 "The reaction rate increased."
      [⟨"Vmax = 5", "Vmax = 7"⟩] (by decide)⟩

/-- Claim C4 as stated is false on the code: `handleBulkResolveConflicts`
never checks whether a conflict is already resolved, so a second resolution
call for the same turn id overwrites the `resolution` field.  Concretely,
resolving turn "1" with kept_existing and then again with combined leaves the
conflict with resolution combined, not the first value kept_existing. -/
theorem C4_counterexample :
    (resolveMessages (resolveMessages
        [⟨"1", Role.model, "", some ⟨some "e", some "n", some "d", none, false, none⟩⟩]
        [("1", Resolution.kept_existing)])
        [("1", Resolution.combined)]).map
      (fun m => m.conflict.map (fun c => (c.resolved, c.resolution))) =
      [some (true, some Resolution.combined)] ∧
    some Resolution.combined ≠ some Resolution.kept_existing :=
  ⟨by decide, by decide⟩

/-- Claim C4 (amended): a second resolution call for the same id is not a
no-op — it keeps the conflict resolved but overwrites `resolution` with the
second strategy; resolving with s1 and then s2 produces exactly the state of
resolving once with s2 (last writer wins). -/
theorem recLookup_singleton (idv : String) (s : Resolution) (x : String) :
    recLookup [(idv, s)] x = if idv = x then some s else none := by
  by_cases h : idv = x <;> simp [recLookup, h]

theorem resolveOne_twice (idv : String) (s1 s2 : Resolution) (m : Message) :
    resolveOne [(idv, s2)] (resolveOne [(idv, s1)] m) = resolveOne [(idv, s2)] m := by
  rcases m with ⟨mid, mrole, mtext, mconf⟩
  by_cases h : idv = mid
  · cases mconf <;> simp [resolveOne, recLookup_singleton, h, spreadConflict]
  · simp [resolveOne, recLookup_singleton, h]

theorem C4_second_resolution_overwrites :
    ∀ (messages : List Message) (id : String) (s1 s2 : Resolution),
      resolveMessages (resolveMessages messages [(id, s1)]) [(id, s2)] =
        resolveMessages messages [(id, s2)] := by
  intro messages idv s1 s2
  unfold resolveMessages
  rw [List.map_map]
  apply List.map_congr_left
  intro m hm
  simp only [Function.comp_apply]
  exact resolveOne_twice idv s1 s2 m

/-- Claim C5 as stated is false on the code: resolving an id that names an
existing turn *without* a conflict is not a no-op.  The handler builds
`{ ...msg, conflict: { ...msg.conflict, resolved: true, resolution } }`, and
the object-spread of the `undefined` conflict yields an empty object, so the
turn gains a conflict record.  Concretely, resolving the conflict-free user
turn "1" changes the turn list. -/
theorem C5_counterexample :
    resolveMessages [⟨"1", Role.user, "hi", none⟩] [("1", Resolution.combined)] ≠
      [⟨"1", Role.user, "hi", none⟩] := by
  decide

/-- Claim C5 (amended): resolving never throws (the embedding is total), and
an id matching no turn at all is a silent no-op; but an id naming a turn that
has no embedded conflict makes that turn gain the conflict record
`{resolved: true, resolution: strategy}` with every informational field
absent (while the manifest still compiles no instruction for it, see C9). -/
theorem C5_resolve_missing_turn :
    (∀ (messages : List Message) (id : String) (s : Resolution),
       (∀ m, m ∈ messages → m.id ≠ id) →
       resolveMessages messages [(id, s)] = messages) ∧
    (∀ (messages : List Message) (id : String) (s : Resolution) (m : Message),
       m ∈ messages → m.id = id → m.conflict = none →
       ({ m with conflict := some ⟨none, none, none, none, true, some s⟩ } :
           Message) ∈ resolveMessages messages [(id, s)]) := by
  constructor
  · intro messages idv s hnone
    unfold resolveMessages
    have heq : messages.map (resolveOne [(idv, s)]) = messages.map id := by
      apply List.map_congr_left
      intro m hm
      have hne := hnone m hm
      have hne2 : ¬(idv = m.id) := fun he => hne he.symm
      simp [resolveOne, recLookup_singleton, hne2, id]
    rw [heq, List.map_id]
  · intro messages idv s m hm hid hconf
    have hf : resolveOne [(idv, s)] m =
        { m with conflict := some ⟨none, none, none, none, true, some s⟩ } := by
      rcases m with ⟨mid, mrole, mtext, mconf⟩
      simp only at hid hconf
      subst hid
      subst hconf
      simp [resolveOne, recLookup_singleton, spreadConflict]
    unfold resolveMessages
    exact hf ▸ List.mem_map_of_mem (resolveOne [(idv, s)]) hm

/-- Witness for C5 (amended): a stale id is a no-op; a conflict-free turn
gains a resolved conflict record. -/
theorem C5_resolve_missing_turn_witness :
    resolveMessages [⟨"1", Role.user, "hi", none⟩] [("stale", Resolution.combined)] =
      [⟨"1", Role.user, "hi", none⟩] ∧
    (⟨"1", Role.user, "hi",
        some ⟨none, none, none, none, true, some Resolution.combined⟩⟩ : Message) ∈
      resolveMessages [⟨"1", Role.user, "hi", none⟩] [("1", Resolution.combined)] :=
  ⟨C5_resolve_missing_turn.1 [⟨"1", Role.user, "hi", none⟩] "stale"
      Resolution.combined (by decide),
   C5_resolve_missing_turn.2 [⟨"1", Role.user, "hi", none⟩] "1"
      Resolution.combined ⟨"1", Role.user, "hi", none⟩
      (List.mem_singleton.mpr rfl) rfl rfl⟩

/-- Claim C6: on every submit the user turn is appended immediately and
survives in place whatever the collaborator outcome (never rolled back); the
busy state always returns to IDLE; a collaborator failure appends exactly one
synthetic error turn; and a successful result with narrative text and no
patches or conflicts appends exactly one user and one assistant turn, leaving
the document content unchanged (scenario D). -/
theorem C6_submit_orchestration :
    (∀ (st : AppSt) (text : String) (outcome : Except String SendResult),
       ∃ rest, (handleSendMessage st text outcome).messages =
         st.messages ++
           ({ id := freshId st.nextId, role := Role.user, text := text,
              conflict := none } :: rest)) ∧
    (∀ (st : AppSt) (text : String) (outcome : Except String SendResult),
       (handleSendMessage st text outcome).appState = AppState.IDLE) ∧
    (∀ (st : AppSt) (text err : String),
       handleSendMessage st text (Except.error err) =
         { content := st.content,
           messages := st.messages ++
             [{ id := freshId st.nextId, role := Role.user, text := text,
                conflict := none },
              { id := freshId (st.nextId + 1), role := Role.model,
                text := errorText, conflict := none }],
           appState := AppState.IDLE,
           nextId := st.nextId + 2 }) ∧
    (∀ (st : AppSt) (text : String) (r : SendResult),
       r.reportUpdates = [] → r.conflicts = [] → r.text ≠ "" →
       (handleSendMessage st text (Except.ok r)).messages =
         st.messages ++
           [{ id := freshId st.nextId, role := Role.user, text := text,
              conflict := none },
            { id := freshId (st.nextId + 1), role := Role.model, text := r.text,
              conflict := none }] ∧
       (handleSendMessage st text (Except.ok r)).content = st.content) := by
  refine ⟨?_, ?_, ?_, ?_⟩
  · intro st text outcome
    cases outcome with
    | error e =>
      refine ⟨[⟨freshId (st.nextId + 1), Role.model, errorText, none⟩], ?_⟩
      simp [handleSendMessage, processAIResponse]
    | ok r =>
      refine ⟨(if r.text ≠ "" then
          ([⟨freshId (st.nextId + 1), Role.model, r.text, none⟩] : List Message)
          else []) ++
        conflictMessages r.conflicts
          (st.nextId + 1 +
            (if r.text ≠ "" then
              ([⟨freshId (st.nextId + 1), Role.model, r.text, none⟩] : List Message)
              else []).length), ?_⟩
      simp [handleSendMessage, processAIResponse]
  · intro st text outcome
    cases outcome <;> simp [handleSendMessage, processAIResponse]
  · intro st text err
    simp [handleSendMessage, processAIResponse]
  · intro st text r hupd hconf htext
    constructor
    · simp [handleSendMessage, processAIResponse, hupd, hconf, htext,
        conflictMessages, applyReportUpdates]
    · simp [handleSendMessage, processAIResponse, hupd, applyReportUpdates]

/-- Witness for C6: scenario D at a concrete state — collaborator stub
returning narrative text and no patches or conflicts. -/
theorem C6_submit_orchestration_witness :
    (handleSendMessage ⟨"doc", [], AppState.IDLE, 0⟩
        ("What is Avogadro" ++ sq ++ "s number?")
        (Except.ok ⟨"6.022×10^23", [], [], []⟩)).messages =
      [⟨freshId 0, Role.user, "What is Avogadro" ++ sq ++ "s number?", none⟩,
       ⟨freshId 1, Role.model, "6.022×10^23", none⟩] ∧
    (handleSendMessage ⟨"doc", [], AppState.IDLE, 0⟩
        ("What is Avogadro" ++ sq ++ "s number?")
        (Except.ok ⟨"6.022×10^23", [], [], []⟩)).content = "doc" :=
  C6_submit_orchestration.2.2.2 ⟨"doc", [], AppState.IDLE, 0⟩
    ("What is Avogadro" ++ sq ++ "s number?") ⟨"6.022×10^23", [], [], []⟩
    rfl rfl (by decide)

/-- Claim C7 as stated is false on the code: the document mutations of two
overlapping submits are not serialized.  Each call reads the document through
the `currentFile` closure captured before either commit (App.tsx line 135)
and commits by replacing the content wholesale (line 149).  Concretely, with
content "x", a first call patching "x"→"y" and an overlapping second call
patching "y"→"z": the code leaves "y" (the second batch ran against the stale
snapshot "x" and found no match), while serialized application gives "z". -/
theorem C7_counterexample :
    overlappingSubmits "x" [⟨"x", "y"⟩] [⟨"y", "z"⟩] = "y" ∧
    serializedSubmits "x" [⟨"x", "y"⟩] [⟨"y", "z"⟩] = "z" ∧
    ("y" : String) ≠ "z" :=
  ⟨by decide, by decide, by decide⟩

/-- Claim C7 (amended): overlapping submits are not serialized — each call
applies its batch against the snapshot captured by its own closure; the
overlapping execution agrees with serialized application only when the first
call's batch applied zero patches (so its commit left the content it
captured unchanged). -/
theorem C7_overlapping_not_serialized :
    ∀ (content : String) (updatesA updatesB : List UpdateReportAction),
      (applyReportUpdates content updatesA).2 = 0 →
      overlappingSubmits content updatesA updatesB =
        serializedSubmits content updatesA updatesB := by
  intro content uA uB h
  unfold overlappingSubmits serializedSubmits
  have h1 := applyReportUpdates_snd_zero uA content h
  simp [h, h1]

/-- Witness for C7 (amended): a first batch that matches nothing. -/
theorem C7_overlapping_not_serialized_witness :
    overlappingSubmits "x" [⟨"q", "y"⟩] [⟨"x", "z"⟩] =
      serializedSubmits "x" [⟨"q", "y"⟩] [⟨"x", "z"⟩] :=
  C7_overlapping_not_serialized "x" [⟨"q", "y"⟩] [⟨"x", "z"⟩] (by decide)

theorem applyOp_length_le (msgs : List Message) (op : Op) :
    msgs.length ≤ (applyOp msgs op).length := by
  cases op with
  | append newMsgs => simp [applyOp]
  | bulkResolve rs => simp [applyOp, resolveMessages]

theorem applyOps_length_le :
    ∀ (ops : List Op) (msgs : List Message),
      msgs.length ≤ (applyOps msgs ops).length := by
  intro ops
  induction ops with
  | nil =>
    intro msgs
    exact Nat.le_refl _
  | cons op ops ih =>
    intro msgs
    exact Nat.le_trans (applyOp_length_le msgs op) (ih (applyOp msgs op))

theorem applyOp_get_resolved (msgs : List Message) (op : Op) (i : Nat)
    (h1 : i < msgs.length) (h2 : i < (applyOp msgs op).length)
    (hres : hasResolvedConflict (msgs.get ⟨i, h1⟩) = true) :
    hasResolvedConflict ((applyOp msgs op).get ⟨i, h2⟩) = true := by
  cases op with
  | append newMsgs =>
    have hget : (applyOp msgs (Op.append newMsgs)).get ⟨i, h2⟩ = msgs.get ⟨i, h1⟩ := by
      simp only [applyOp, List.get_eq_getElem]
      exact List.getElem_append_left h1
    rw [hget]
    exact hres
  | bulkResolve rs =>
    have hget : (applyOp msgs (Op.bulkResolve rs)).get ⟨i, h2⟩ =
        resolveOne rs (msgs.get ⟨i, h1⟩) := by
      simp [applyOp, resolveMessages, List.get_eq_getElem]
    rw [hget]
    generalize hgen : msgs.get ⟨i, h1⟩ = m at hres
    cases hrl : recLookup rs m.id with
    | some res => simp [resolveOne, hrl, hasResolvedConflict]
    | none =>
      rw [show resolveOne rs m = m by simp [resolveOne, hrl]]
      exact hres

theorem applyOps_get_resolved :
    ∀ (ops : List Op) (msgs : List Message) (i : Nat)
      (h1 : i < msgs.length) (h2 : i < (applyOps msgs ops).length),
      hasResolvedConflict (msgs.get ⟨i, h1⟩) = true →
      hasResolvedConflict ((applyOps msgs ops).get ⟨i, h2⟩) = true := by
  intro ops
  induction ops with
  | nil =>
    intro msgs i h1 h2 hres
    exact hres
  | cons op ops ih =>
    intro msgs i h1 h2 hres
    have hmid : i < (applyOp msgs op).length :=
      Nat.lt_of_lt_of_le h1 (applyOp_length_le msgs op)
    exact ih (applyOp msgs op) i hmid h2
      (applyOp_get_resolved msgs op i h1 hmid hres)

theorem unresolvedPred_eq_false_of_resolved {m : Message}
    (h : hasResolvedConflict m = true) : unresolvedPred m = false := by
  unfold hasResolvedConflict at h
  unfold unresolvedPred
  cases hc : m.conflict with
  | none => rfl
  | some c =>
    rw [hc] at h
    have hcr : c.resolved = true := by simpa using h
    simp [hcr]

/-- Claim C8: the unresolved-conflict view is derived purely from the
conversation turn list — it is a sublist of the turns (hence in turn order)
and contains exactly the members carrying an embedded conflict with
`resolved = false`; and it is permanent: once the turn at a position carries a
resolved conflict, after any sequence of conversation operations (appending
new turns — including new conflicts — and further bulk resolutions) the turn
at that position never satisfies the view predicate again, so it never
reappears in the view. -/
theorem C8_unresolved_view :
    (∀ (messages : List Message),
       List.Sublist (unresolvedConflicts messages) messages) ∧
    (∀ (messages : List Message) (m : Message),
       m ∈ unresolvedConflicts messages ↔
         m ∈ messages ∧ ∃ c, m.conflict = some c ∧ c.resolved = false) ∧
    (∀ (messages : List Message) (ops : List Op),
       messages.length ≤ (applyOps messages ops).length) ∧
    (∀ (messages : List Message) (ops : List Op) (i : Nat)
       (h1 : i < messages.length) (h2 : i < (applyOps messages ops).length),
       hasResolvedConflict (messages.get ⟨i, h1⟩) = true →
       ((applyOps messages ops).get ⟨i, h2⟩) ∉
         unresolvedConflicts (applyOps messages ops)) := by
  refine ⟨?_, ?_, ?_, ?_⟩
  · intro messages
    exact List.filter_sublist messages
  · intro messages m
    constructor
    · intro h
      rcases List.mem_filter.mp h with ⟨hmem, hpred⟩
      refine ⟨hmem, ?_⟩
      unfold unresolvedPred at hpred
      cases hc : m.conflict with
      | none => rw [hc] at hpred; exact absurd hpred (by simp)
      | some c =>
        rw [hc] at hpred
        exact ⟨c, rfl, by simpa using hpred⟩
    · rintro ⟨hmem, c, hc, hres⟩
      refine List.mem_filter.mpr ⟨hmem, ?_⟩
      unfold unresolvedPred
      rw [hc]
      simp [hres]
  · intro messages ops
    exact applyOps_length_le ops messages
  · intro messages ops i h1 h2 hres hmem
    have hr := applyOps_get_resolved ops messages i h1 h2 hres
    have := (List.mem_filter.mp hmem).2
    rw [unresolvedPred_eq_false_of_resolved hr] at this
    exact Bool.false_ne_true this

/-- Witness for C8: a resolved conflict turn stays out of the view after an
append of a fresh conflict turn and a further bulk resolution. -/
theorem C8_unresolved_view_witness :
    ((applyOps
        [⟨"1", Role.model, "",
          some ⟨some "e", some "n", some "d", none, true, some Resolution.combined⟩⟩]
        [Op.append [⟨"2", Role.model, "",
            some ⟨some "e2", some "n2", some "d2", none, false, none⟩⟩],
         Op.bulkResolve [("2", Resolution.kept_existing)]]).get ⟨0, by decide⟩) ∉
      unresolvedConflicts (applyOps
        [⟨"1", Role.model, "",
          some ⟨some "e", some "n", some "d", none, true, some Resolution.combined⟩⟩]
        [Op.append [⟨"2", Role.model, "",
            some ⟨some "e2", some "n2", some "d2", none, false, none⟩⟩],
         Op.bulkResolve [("2", Resolution.kept_existing)]]) :=
  C8_unresolved_view.2.2.2
    [⟨"1", Role.model, "",
      some ⟨some "e", some "n", some "d", none, true, some Resolution.combined⟩⟩]
    [Op.append [⟨"2", Role.model, "",
        some ⟨some "e2", some "n2", some "d2", none, false, none⟩⟩],
     Op.bulkResolve [("2", Resolution.kept_existing)]]
    0 (by decide) (by decide) (by decide)

theorem resolutionLineFor_ne_empty (c : Conflict) (res : Resolution) :
    resolutionLineFor c res ≠ "" := by
  cases res <;> intro h <;> simp only [resolutionLineFor] at h <;>
    (repeat replace h := (string_append_eq_empty h).1) <;>
    exact absurd h (by decide)

theorem resolutionEntryText_eq_empty_iff (messages : List Message) (id : String)
    (res : Resolution) :
    resolutionEntryText messages id res = "" ↔
      entryHasConflict messages id = false := by
  unfold resolutionEntryText entryHasConflict
  cases hf : messages.find? (fun m => m.id = id) with
  | none => simp
  | some msg =>
    cases hc : msg.conflict with
    | none => simp [hc]
    | some c => simp [hc, resolutionLineFor_ne_empty c res]

/-- Claim C9: the compiled resolution manifest contains exactly one
instruction per resolution entry whose id matches a turn with an embedded
conflict; the instruction compiled for such an entry is the template of the
chosen strategy filled with that turn's own conflict; for `updated_new` the
instruction carries the conflict's `existing_info` and `new_info` verbatim as
substrings; and scenario B — two conflicts both resolved `updated_new` —
compiles two distinct replace-instructions, one per conflict. -/
theorem C9_resolution_manifest :
    (∀ (messages : List Message) (resolutions : List (String × Resolution)),
       (resolutionDetails messages resolutions).length =
         (resolutions.filter (fun e => entryHasConflict messages e.1)).length) ∧
    (∀ (messages : List Message) (id : String) (res : Resolution)
       (msg : Message) (c : Conflict),
       messages.find? (fun m => m.id = id) = some msg →
       msg.conflict = some c →
       resolutionEntryText messages id res = resolutionLineFor c res) ∧
    (∀ (c : Conflict),
       strOccurs (jsShow c.existing_info)
         (resolutionLineFor c Resolution.updated_new) = true ∧
       strOccurs (jsShow c.new_info)
         (resolutionLineFor c Resolution.updated_new) = true) ∧
    (resolutionDetails
        [⟨"1", Role.model, "",
          some ⟨some "99°C", some "100°C", some "Boiling point", none, false, none⟩⟩,
         ⟨"2", Role.model, "",
          some ⟨some "Vmax = 5", some "Vmax = 7", some "Vmax", none, false, none⟩⟩]
        [("1", Resolution.updated_new), ("2", Resolution.updated_new)] =
      [resolutionLineFor
          ⟨some "99°C", some "100°C", some "Boiling point", none, false, none⟩
          Resolution.updated_new,
       resolutionLineFor
          ⟨some "Vmax = 5", some "Vmax = 7", some "Vmax", none, false, none⟩
          Resolution.updated_new] ∧
     resolutionLineFor
        ⟨some "99°C", some "100°C", some "Boiling point", none, false, none⟩
        Resolution.updated_new ≠
      resolutionLineFor
        ⟨some "Vmax = 5", some "Vmax = 7", some "Vmax", none, false, none⟩
        Resolution.updated_new) := by
  refine ⟨?_, ?_, ?_, by decide, by decide⟩
  · intro messages resolutions
    unfold resolutionDetails
    rw [List.filter_map, List.length_map]
    congr 1
    apply List.filter_congr
    intro e he
    simp only [Function.comp_apply]
    have hiff := resolutionEntryText_eq_empty_iff messages e.1 e.2
    by_cases hempty : resolutionEntryText messages e.1 e.2 = ""
    · simp [hempty, hiff.mp hempty]
    · have hT : entryHasConflict messages e.1 = true := by
        cases hcase : entryHasConflict messages e.1 with
        | false => exact absurd (hiff.mpr hcase) hempty
        | true => rfl
      simp [hempty, hT]
  · intro messages idv res msg c hf hc
    simp [resolutionEntryText, hf, hc]
  · intro c
    constructor
    · apply strOccurs_iff.mpr
      refine ⟨("Conflict \"" ++ jsShow c.description ++
          "\": USER DECISION = OVERWRITE. Replace existing text block exactly matching \"").data,
        ("\" with new data: \"" ++ jsShow c.new_info ++ "\".").data, ?_⟩
      simp [resolutionLineFor, string_append_data, List.append_assoc]
    · apply strOccurs_iff.mpr
      refine ⟨("Conflict \"" ++ jsShow c.description ++
          "\": USER DECISION = OVERWRITE. Replace existing text block exactly matching \"" ++
          jsShow c.existing_info ++ "\" with new data: \"").data,
        ("\"." : String).data, ?_⟩
      simp [resolutionLineFor, string_append_data, List.append_assoc]

/-- Witness for C9: the per-entry compilation applied at a concrete
conversation. -/
theorem C9_resolution_manifest_witness :
    resolutionEntryText
        [⟨"1", Role.model, "",
          some ⟨some "99°C", some "100°C", some "Boiling point", none, false, none⟩⟩]
        "1" Resolution.updated_new =
      resolutionLineFor
        ⟨some "99°C", some "100°C", some "Boiling point", none, false, none⟩
        Resolution.updated_new :=
  C9_resolution_manifest.2.1
    [⟨"1", Role.model, "",
      some ⟨some "99°C", some "100°C", some "Boiling point", none, false, none⟩⟩]
    "1" Resolution.updated_new
    ⟨"1", Role.model, "",
      some ⟨some "99°C", some "100°C", some "Boiling point", none, false, none⟩⟩
    ⟨some "99°C", some "100°C", some "Boiling point", none, false, none⟩
    (by decide) rfl

theorem fallbackUpdated_ne_empty (language : Lang) (n : Nat) :
    fallbackUpdated language n ≠ "" := by
  cases language <;> intro h <;> simp only [fallbackUpdated] at h <;>
    (repeat replace h := (string_append_eq_empty h).1) <;>
    exact absurd h (by decide)

/-- Claim C10: when the collaborator result carries at least one
`update_report` call and no narrative text, the fallback acknowledgement is
synthesized ("Report updated with N changes." and its Persian counterpart),
it is nonempty, and the appended assistant turn carries exactly it — so the
turn is never silently empty, in particular when at least one patch actually
applied to the document. -/
theorem C10_fallback_acknowledgement :
    ∀ (st : AppSt) (rawText : String) (calls : List FunctionCall)
      (language : Lang),
      collectUpdates calls ≠ [] → rawText = "" →
      1 ≤ (applyReportUpdates st.content (collectUpdates calls)).2 →
      (processGeminiResult rawText calls language).text =
          fallbackUpdated language (collectUpdates calls).length ∧
      (processGeminiResult rawText calls language).text ≠ "" ∧
      ∃ rest,
        (processAIResponse st
            (Except.ok (processGeminiResult rawText calls language))).messages =
          st.messages ++
            ({ id := freshId st.nextId, role := Role.model,
               text := (processGeminiResult rawText calls language).text,
               conflict := none } :: rest) := by
  intro st rawText calls language hupd hraw happ
  have hcalls : calls.length > 0 := by
    cases calls with
    | nil => exact absurd rfl hupd
    | cons a l => simp
  have htext : (processGeminiResult rawText calls language).text =
      fallbackUpdated language (collectUpdates calls).length := by
    unfold processGeminiResult
    simp [hcalls, hupd, hraw]
  have hne : (processGeminiResult rawText calls language).text ≠ "" := by
    rw [htext]
    exact fallbackUpdated_ne_empty language (collectUpdates calls).length
  refine ⟨htext, hne, ?_⟩
  refine ⟨conflictMessages (processGeminiResult rawText calls language).conflicts
      (st.nextId + 1), ?_⟩
  unfold processAIResponse
  simp [hne]

/-- Witness for C10 at a concrete state: one `update_report` call that
matches, no narrative text, English interface. -/
theorem C10_fallback_acknowledgement_witness :
    (processGeminiResult "" [FunctionCall.update_report ⟨"a", "b"⟩] Lang.en).text =
        fallbackUpdated Lang.en
          (collectUpdates [FunctionCall.update_report ⟨"a", "b"⟩]).length ∧
    (processGeminiResult "" [FunctionCall.update_report ⟨"a", "b"⟩] Lang.en).text ≠
        "" ∧
    ∃ rest,
      (processAIResponse ⟨"a", [], AppState.IDLE, 0⟩
          (Except.ok (processGeminiResult ""
            [FunctionCall.update_report ⟨"a", "b"⟩] Lang.en))).messages =
        ([] : List Message) ++
          ({ id := freshId 0, role := Role.model,
             text := (processGeminiResult ""
               [FunctionCall.update_report ⟨"a", "b"⟩] Lang.en).text,
             conflict := none } :: rest) :=
  C10_fallback_acknowledgement ⟨"a", [], AppState.IDLE, 0⟩ ""
    [FunctionCall.update_report ⟨"a", "b"⟩] Lang.en
    (by decide) rfl (by decide)

end LabReportAI
